import Mathlib

/-!
Verification development for the deligo-website client-side document
security pipeline: the base64 codec and AES-GCM packaging of
`src/lib/security/encryption.ts`, and the watermarking pipeline of the
document watermark module (`applyWatermark`, `applyPdfWatermark`,
`processDocument`, `applyInvisibleWatermark`, `hashEmail`,
`textToBinary`, `dataUrlToBlob`), plus the per-document submission loop
of the registration component (`handleDocumentsSubmit`).

Modelling conventions:
- JavaScript strings are `List Char`; byte buffers (`Uint8Array`,
  `ArrayBuffer`, binary strings fed to `btoa`/`atob`) are `List Nat`
  with values below 256 where the runtime guarantees it.
- Browser primitives that are not part of this repository
  (`crypto.subtle.digest`, `crypto.subtle.encrypt`, image
  decoding/encoding, canvas text rendering, `crypto.randomUUID`,
  the clock) are abstract parameters collected in an `Env` structure;
  `crypto.getRandomValues` is an explicit entropy stream `Nat → Nat`.
- `btoa`/`atob` are modelled by the standard RFC 4648 alphabet with
  `=` padding; the forgiving-base64 whitespace stripping of `atob`
  is not modelled (no code path or claim feeds it whitespace).
-/

/-- Alphabet used by `btoa`/`atob` (RFC 4648). -/
def b64Alphabet : List Char :=
  ("ABCDEFGHIJKLMNOPQRSTUVWXYZabcdefghijklmnopqrstuvwxyz0123456789+/".data)

/-- Character for a 6-bit group. -/
def b64EncChar (n : Nat) : Char := b64Alphabet.getD n 'A'

/-- Value of a base64 alphabet character; `none` for characters outside
the alphabet (such as `=` or `,`). -/
def b64DecChar (c : Char) : Option Nat :=
  let i := b64Alphabet.indexOf c
  if i < 64 then some i else none

/-- Base64 encoding of a byte sequence, as performed by `btoa` on the
binary string built by `arrayBufferToBase64`: 3-byte groups become 4
characters, a trailing group of 1 or 2 bytes is padded with `=`. -/
def b64Encode : List Nat → List Char
  | [] => []
  | [a] => [b64EncChar (a / 4), b64EncChar ((a % 4) * 16), '=', '=']
  | [a, b] => [b64EncChar (a / 4), b64EncChar ((a % 4) * 16 + b / 16),
      b64EncChar ((b % 16) * 4), '=']
  | a :: b :: c :: rest =>
      b64EncChar (a / 4) :: b64EncChar ((a % 4) * 16 + b / 16) ::
      b64EncChar ((b % 16) * 4 + c / 64) :: b64EncChar (c % 64) :: b64Encode rest

/-- Base64 decoding as performed by `atob` (without whitespace
stripping): 4-character groups, `=` allowed only as final padding, a
trailing unpadded group of 2 or 3 characters accepted, a trailing group
of 1 character rejected; `none` models a thrown `InvalidCharacterError`. -/
def b64Decode : List Char → Option (List Nat)
  | [] => some []
  | [_] => none
  | [c0, c1] =>
      (b64DecChar c0).bind fun s0 =>
      (b64DecChar c1).bind fun s1 =>
      some [s0 * 4 + s1 / 16]
  | [c0, c1, c2] =>
      (b64DecChar c0).bind fun s0 =>
      (b64DecChar c1).bind fun s1 =>
      (b64DecChar c2).bind fun s2 =>
      some [s0 * 4 + s1 / 16, (s1 % 16) * 16 + s2 / 4]
  | c0 :: c1 :: c2 :: c3 :: rest =>
      (b64DecChar c0).bind fun s0 =>
      (b64DecChar c1).bind fun s1 =>
      if c2 = '=' ∧ c3 = '=' ∧ rest = [] then
        some [s0 * 4 + s1 / 16]
      else
        (b64DecChar c2).bind fun s2 =>
        if c3 = '=' ∧ rest = [] then
          some [s0 * 4 + s1 / 16, (s1 % 16) * 16 + s2 / 4]
        else
          (b64DecChar c3).bind fun s3 =>
          (b64Decode rest).map fun bs =>
            (s0 * 4 + s1 / 16) :: ((s1 % 16) * 16 + s2 / 4) ::
              ((s2 % 4) * 64 + s3) :: bs

/-- Decoding inverts encoding on each alphabet index, `Fin` form. -/
theorem b64DecChar_encChar_fin :
    ∀ n : Fin 64, b64DecChar (b64EncChar n.val) = some n.val := by decide

/-- Decoding inverts encoding on each alphabet index. -/
theorem b64DecChar_encChar (n : Nat) (h : n < 64) :
    b64DecChar (b64EncChar n) = some n :=
  b64DecChar_encChar_fin ⟨n, h⟩

/-- Every value of the encoding character function lies in the alphabet. -/
theorem b64EncChar_mem (n : Nat) : b64EncChar n ∈ b64Alphabet := by
  by_cases h : n < b64Alphabet.length
  · rw [b64EncChar, List.getD_eq_getElem _ _ h]
    exact List.getElem_mem h
  · rw [b64EncChar, List.getD_eq_default _ _ (le_of_not_lt h)]
    decide

/-- Padding is not an alphabet character. -/
theorem pad_not_mem_b64Alphabet : '=' ∉ b64Alphabet := by decide

/-- Encoded characters are never the padding character. -/
theorem b64EncChar_ne_pad (n : Nat) : b64EncChar n ≠ '=' := fun h =>
  pad_not_mem_b64Alphabet (h ▸ b64EncChar_mem n)

/-- Every character emitted by the encoder is an alphabet character or
the padding character. -/
theorem b64Encode_mem (bs : List Nat) :
    ∀ c ∈ b64Encode bs, c ∈ b64Alphabet ∨ c = '=' := by
  have henc := b64EncChar_mem
  induction bs using b64Encode.induct with
  | case1 => intro c hc; simp [b64Encode] at hc
  | case2 a =>
      intro c hc
      simp only [b64Encode, List.mem_cons, List.not_mem_nil, or_false] at hc
      rcases hc with h | h | h | h <;> simp_all [henc]
  | case3 a b =>
      intro c hc
      simp only [b64Encode, List.mem_cons, List.not_mem_nil, or_false] at hc
      rcases hc with h | h | h | h <;> simp_all [henc]
  | case4 a b cc rest ih =>
      intro c hc
      simp only [b64Encode, List.mem_cons] at hc
      rcases hc with h | h | h | h | h <;> simp_all [henc]

/-- Claim C4 core: base64 decode is a left inverse of base64 encode on
byte sequences. -/
theorem b64Decode_b64Encode (bs : List Nat) (h : ∀ b ∈ bs, b < 256) :
    b64Decode (b64Encode bs) = some bs := by
  induction bs using b64Encode.induct with
  | case1 => rfl
  | case2 a =>
      have ha : a < 256 := h a (by simp)
      simp only [b64Encode, b64Decode,
        b64DecChar_encChar _ (show a / 4 < 64 by omega),
        b64DecChar_encChar _ (show a % 4 * 16 < 64 by omega),
        Option.some_bind', and_self, if_true, Option.some.injEq, List.cons.injEq,
        and_true]
      omega
  | case3 a b =>
      have ha : a < 256 := h a (by simp)
      have hb : b < 256 := h b (by simp)
      simp only [b64Encode, b64Decode,
        b64DecChar_encChar _ (show a / 4 < 64 by omega),
        b64DecChar_encChar _ (show a % 4 * 16 + b / 16 < 64 by omega),
        b64DecChar_encChar _ (show b % 16 * 4 < 64 by omega),
        b64EncChar_ne_pad, Option.some_bind', ne_eq, false_and, if_false,
        and_self, if_true, Option.some.injEq, List.cons.injEq, and_true]
      constructor
      · omega
      · omega
  | case4 a b c rest ih =>
      have ha : a < 256 := h a (by simp)
      have hb : b < 256 := h b (by simp)
      have hc : c < 256 := h c (by simp)
      have hrest : ∀ x ∈ rest, x < 256 := fun x hx => h x (by simp [hx])
      simp only [b64Encode, b64Decode,
        b64DecChar_encChar _ (show a / 4 < 64 by omega),
        b64DecChar_encChar _ (show a % 4 * 16 + b / 16 < 64 by omega),
        b64DecChar_encChar _ (show b % 16 * 4 + c / 64 < 64 by omega),
        b64DecChar_encChar _ (show c % 64 < 64 by omega),
        b64EncChar_ne_pad, Option.some_bind', ne_eq, false_and, if_false,
        ih hrest, Option.map_some', Option.some.injEq, List.cons.injEq, and_true]
      refine ⟨by omega, by omega, by omega⟩

/-- Model of `String.prototype.split` with a single-character separator:
`"a,b"` gives `["a","b"]`, `"a,"` gives `["a",""]`, `""` gives `[""]`. -/
def jsSplit (sep : Char) : List Char → List (List Char)
  | [] => [[]]
  | c :: rest =>
      if c = sep then [] :: jsSplit sep rest
      else
        match jsSplit sep rest with
        | [] => [[c]]
        | h :: t => (c :: h) :: t

/-- Splitting a separator-free string yields the singleton list. -/
theorem jsSplit_no_sep (sep : Char) (s : List Char) (h : sep ∉ s) :
    jsSplit sep s = [s] := by
  induction s with
  | nil => rfl
  | cons c rest ih =>
      have hc : c ≠ sep := fun hh => h (by simp [hh])
      have hrest : sep ∉ rest := fun hh => h (by simp [hh])
      simp only [jsSplit, hc, if_false, ih hrest]

/-- Splitting on the unique separator occurrence yields the two parts. -/
theorem jsSplit_single (sep : Char) (a b : List Char) (ha : sep ∉ a)
    (hb : sep ∉ b) : jsSplit sep (a ++ sep :: b) = [a, b] := by
  induction a with
  | nil => simp [jsSplit, jsSplit_no_sep sep b hb]
  | cons c rest ih =>
      have hc : c ≠ sep := fun hh => ha (by simp [hh])
      have hrest : sep ∉ rest := fun hh => ha (by simp [hh])
      simp only [List.cons_append, jsSplit, hc, if_false, List.append_eq, ih hrest]

/-- Model of `arr[0].match(/:(.*?);/)`: the captured group is the text
between the first colon and the first semicolon after it; no match when
there is no colon followed (anywhere later) by a semicolon. -/
def matchMime (s : List Char) : Option (List Char) :=
  match s.dropWhile (fun c => !(c = ':')) with
  | [] => none
  | _ :: rest =>
      if ';' ∈ rest then some (rest.takeWhile (fun c => !(c = ';'))) else none

/-- Byte buffer together with its MIME type, modelling a `Blob` built
from a `Uint8Array`. -/
structure JsBlob where
  type : List Char
  content : List Nat
deriving DecidableEq, Repr

/-- Model of `dataUrlToBlob` (watermark module): split on commas, parse
the declared MIME type from the first part (`application/octet-stream`
when the `/:(.*?);/` pattern does not match), `atob` the second part
(the JavaScript string `"undefined"` when the split produced a single
part, since `arr[1]` is `undefined`); `none` models the
`InvalidCharacterError` thrown by `atob`. -/
def dataUrlToBlob (dataUrl : List Char) : Option JsBlob :=
  let arr := jsSplit ',' dataUrl
  let mime := (matchMime (arr.getD 0 [])).getD ("application/octet-stream".data)
  match b64Decode (arr.getD 1 ("undefined".data)) with
  | some bytes => some { type := mime, content := bytes }
  | none => none

/-- Digit characters used by `Number.prototype.toString(radix)`. -/
def digitChar (n : Nat) : Char :=
  ("0123456789abcdefghijklmnopqrstuvwxyz".data).getD n '0'

/-- Fuel-driven digit expansion for `Number.prototype.toString(radix)`,
most significant digit first. -/
def natToStringBaseAux (base : Nat) : Nat → Nat → List Char
  | 0, _ => []
  | fuel + 1, n =>
      if n < base then [digitChar n]
      else natToStringBaseAux base fuel (n / base) ++ [digitChar (n % base)]

/-- Model of `n.toString(base)` for a natural number `n` and base ≥ 2. -/
def natToStringBase (base n : Nat) : List Char := natToStringBaseAux base (n + 1) n

/-- Model of `String.prototype.padStart(len, c)`. -/
def padStart (len : Nat) (c : Char) (s : List Char) : List Char :=
  List.replicate (len - s.length) c ++ s

/-- Model of `textToBinary` (watermark module): each character code
rendered in base 2 and left-padded to 8 digits, all concatenated. -/
def textToBinary (text : List Char) : List Char :=
  (text.map (fun char => padStart 8 '0' (natToStringBase 2 char.toNat))).flatten

/-- Model of `arrayBufferToHex` (watermark module): each byte rendered
in base 16 and left-padded to 2 digits, all concatenated. -/
def arrayBufferToHex (buffer : List Nat) : List Char :=
  (buffer.map (fun b => padStart 2 '0' (natToStringBase 16 b))).flatten

/-- UTF-8 encoding of one code point, modelling `TextEncoder`. -/
def utf8EncodeChar (c : Char) : List Nat :=
  let n := c.toNat
  if n < 128 then [n]
  else if n < 2048 then [192 + n / 64, 128 + n % 64]
  else if n < 65536 then [224 + n / 4096, 128 + (n / 64) % 64, 128 + n % 64]
  else [240 + n / 262144, 128 + (n / 4096) % 64, 128 + (n / 64) % 64, 128 + n % 64]

/-- Model of `new TextEncoder().encode` on a JavaScript string. -/
def utf8Encode (s : List Char) : List Nat := (s.map utf8EncodeChar).flatten

/-- Model of `arrayBufferToBase64` (both in `encryption.ts` and the
watermark module): build the binary string of byte char-codes, `btoa`. -/
def arrayBufferToBase64 (buffer : List Nat) : List Char := b64Encode buffer

/-- Model of `base64ToArrayBuffer` (`encryption.ts`): `atob`, then read
the char codes back into a byte buffer. -/
def base64ToArrayBuffer (base64 : List Char) : Option (List Nat) := b64Decode base64

/-- RGBA pixel of a canvas `ImageData` buffer (each channel one byte of
a `Uint8ClampedArray`). -/
structure Pix where
  r : Nat
  g : Nat
  b : Nat
  a : Nat
deriving DecidableEq, Repr

/-- User-supplied `File`: name, declared MIME type, raw byte content. -/
structure JsFile where
  name : List Char
  type : List Char
  content : List Nat
deriving DecidableEq, Repr

/-- A `Date` value, carrying the strings the code extracts from it:
`toISOString()` and `toLocaleDateString('en-GB', ...)`. -/
structure JsDate where
  iso : List Char
  localeGB : List Char
deriving DecidableEq, Repr

/-- Metadata object embedded by `applyWatermark` (field order is object
literal insertion order, which `JSON.stringify` preserves). -/
structure WatermarkMetadata where
  sessionId : List Char
  emailHash : List Char
  timestamp : List Char
  purpose : List Char
  platform : List Char
deriving DecidableEq, Repr

/-- Metadata object built by `applyPdfWatermark`. -/
structure PdfMetadata where
  sessionId : List Char
  emailHash : List Char
  timestamp : List Char
  purpose : List Char
  requiresServerWatermark : Bool
deriving DecidableEq, Repr

/-- Options of `applyWatermark` / `applyPdfWatermark`; `Option` fields
model the optional (`?:`) TypeScript fields, with the source's defaults
applied at the use sites (`visibleWatermark = true`, `opacity = 0.15`;
the opacity is carried in hundredths since it only flows, opaquely, into
the abstract canvas text-rendering primitive). -/
structure WatermarkOptions where
  sessionId : List Char
  email : List Char
  timestamp : JsDate
  visibleWatermark : Option Bool
  watermarkText : Option (List Char)
  opacity : Option Nat

/-- Options of `processDocument`. -/
structure ProcessDocumentOptions where
  userEmail : List Char
  documentType : List Char
  addVisibleWatermark : Option Bool
  addInvisibleWatermark : Option Bool

/-- Result of `applyWatermark`. -/
structure WatermarkedDocument where
  data : List Char
  originalName : List Char
  mimeType : List Char
  metadataHash : List Char
  processedAt : List Char
deriving DecidableEq, Repr

/-- Result of `applyPdfWatermark`. -/
structure PdfWatermarkResult where
  data : List Char
  requiresServerProcessing : Bool
  metadata : PdfMetadata
deriving DecidableEq, Repr

/-- Result of `processDocument`; `metadataHash`/`watermarkId` are the
optional fields of the TypeScript interface. -/
structure ProcessedDocument where
  blob : JsBlob
  originalName : List Char
  mimeType : List Char
  metadataHash : Option (List Char)
  watermarkId : Option (List Char)
  processedAt : List Char
deriving DecidableEq, Repr

/-- Browser primitives used by the pipeline that are outside this
repository. `decodeImage` stands for `loadImage` + `drawImage` (content
to width, height and pixel grid); `encodeImage` for the byte payload of
`canvas.toDataURL(mime, quality)`; `renderVisible` for the canvas text
drawing done by `applyVisibleWatermark` (text, width, height, opacity in
hundredths, image to image); `sha256` for `crypto.subtle.digest`;
`aesGcmEncrypt` for `crypto.subtle.encrypt` with AES-GCM (key, iv,
plaintext to ciphertext-with-tag); `randomUUID` for `crypto.randomUUID`;
`now` for `new Date()`. -/
structure Env where
  ctx2dAvailable : Bool
  sha256 : List Nat → List Nat
  aesGcmEncrypt : List Nat → List Nat → List Nat → List Nat
  decodeImage : List Nat → Nat × Nat × (Nat × Nat → Pix)
  encodeImage : List Char → Option Nat → (Nat × Nat → Pix) → Nat → Nat → List Nat
  renderVisible : List Char → Nat → Nat → Nat → (Nat × Nat → Pix) → Nat × Nat → Pix
  randomUUID : List Char
  now : JsDate

/-- JSON string escaping of one character as done by `JSON.stringify`
for the characters that can occur in the serialized values here (quote
and backslash; control-character escapes are not modelled — no claim
feeds control characters). -/
def jsonEscapeChar (c : Char) : List Char :=
  if c = '"' then ['\\', '"'] else if c = '\\' then ['\\', '\\'] else [c]

/-- JSON escaping of a string value. -/
def jsonEscape (s : List Char) : List Char := (s.map jsonEscapeChar).flatten

/-- A JSON string literal: quote, escaped text, quote. -/
def jsonStr (s : List Char) : List Char := '"' :: (jsonEscape s ++ ['"'])

/-- Model of `JSON.stringify(metadata)` for the image-watermark metadata
object, in object-literal field order. -/
def jsonStringifyMetadata (m : WatermarkMetadata) : List Char :=
  ("\x7b\"sessionId\":".data) ++ jsonStr m.sessionId ++
  (",\"emailHash\":".data) ++ jsonStr m.emailHash ++
  (",\"timestamp\":".data) ++ jsonStr m.timestamp ++
  (",\"purpose\":".data) ++ jsonStr m.purpose ++
  (",\"platform\":".data) ++ jsonStr m.platform ++ ("\x7d".data)

/-- Model of `hashEmail` (watermark module): hex digest of SHA-256 of
the UTF-8 encoded lowercased email, truncated to the first 16 hex
characters. `toLowerCase` is modelled by `Char.toLower` per character. -/
def hashEmail (env : Env) (email : List Char) : List Char :=
  (arrayBufferToHex (env.sha256 (utf8Encode (email.map Char.toLower)))).take 16

/-- Model of `generateMetadataHash` (watermark module): full hex digest
of SHA-256 of the JSON serialization of the metadata object. -/
def generateMetadataHash (env : Env) (metadata : WatermarkMetadata) : List Char :=
  arrayBufferToHex (env.sha256 (utf8Encode (jsonStringifyMetadata metadata)))

/-- Model of `str[0]` in a template literal: the first character, or the
string `"undefined"` for an empty string. -/
def jsCharAt0 (s : List Char) : List Char :=
  match s with
  | [] => ("undefined".data)
  | c :: _ => [c]

/-- Model of `maskEmail` (watermark module). -/
def maskEmail (email : List Char) : List Char :=
  let parts := jsSplit '@' email
  let local0 := parts.getD 0 []
  let domain := parts.getD 1 []
  if parts.length < 2 ∨ domain = [] then ("***".data)
  else
    let maskedLocal :=
      if 2 < local0.length then
        jsCharAt0 local0 ++ List.replicate (min (local0.length - 2) 4) '*' ++
          [local0.getD (local0.length - 1) '*']
      else ("**".data)
    let domainParts := jsSplit '.' domain
    let maskedDomain :=
      if 1 < domainParts.length then
        jsCharAt0 (domainParts.getD 0 []) ++ ("***".data) ++
          domainParts.getD (domainParts.length - 1) []
      else domain
    maskedLocal ++ ('@' :: maskedDomain)

/-- Model of `ctx.getImageData(x0, y0, w, h)`: the w×h pixels in raster
order (row-major, left to right, top to bottom). -/
def getImageData (img : Nat × Nat → Pix) (x0 y0 w h : Nat) : List Pix :=
  (List.range (w * h)).map (fun j => img (x0 + j % w, y0 + j / w))

/-- Model of `ctx.putImageData(d, x0, y0)` for a w×h buffer `d`: inside
the rectangle the image takes the buffer's pixels (raster order),
outside it is unchanged. -/
def putImageData (img : Nat × Nat → Pix) (x0 y0 w h : Nat) (d : List Pix) :
    Nat × Nat → Pix :=
  fun p =>
    if x0 ≤ p.1 ∧ p.1 < x0 + w ∧ y0 ≤ p.2 ∧ p.2 < y0 + h then
      d.getD ((p.2 - y0) * w + (p.1 - x0)) (img p)
    else img p

/-- Model of `parseInt(binary[bitIndex], 10)` on a binary digit
character. -/
def parseBinDigit (c : Char) : Nat := c.toNat - 48

/-- Overwriting the least significant bit of the blue channel:
`data[i + 2] = (data[i + 2] & 0xFE) | bit`. -/
def setBlueLsb (p : Pix) (bit : Nat) : Pix :=
  { p with b := Nat.lor (Nat.land p.b 254) bit }

/-- The embedding loop of `applyInvisibleWatermark`: walk the pixel
buffer in raster order, overwriting the blue-channel LSB with the next
metadata bit, stopping when the bits run out. -/
def embedBits : List Pix → List Char → List Pix
  | ps, [] => ps
  | [], _ :: _ => []
  | p :: ps, bit :: rest => setBlueLsb p (parseBinDigit bit) :: embedBits ps rest

/-- Model of the reserved-region size
`Math.min(100, Math.floor(width * 0.1), Math.floor(height * 0.1))`
(with `x * 0.1` floored modelled as `x / 10`; IEEE `*0.1` and `/10`
agree on all canvas-sized dimensions). -/
def regionSize (width height : Nat) : Nat :=
  min 100 (min (width / 10) (height / 10))

/-- Model of `applyInvisibleWatermark` (watermark module): serialize the
metadata, take the bottom-right reserved region, embed the bits into the
blue-channel LSBs, write the region back. -/
def applyInvisibleWatermark (img : Nat × Nat → Pix) (metadata : WatermarkMetadata)
    (width height : Nat) : Nat × Nat → Pix :=
  let binary := textToBinary (jsonStringifyMetadata metadata)
  let rs := regionSize width height
  let imageData := getImageData img (width - rs) (height - rs) rs rs
  putImageData img (width - rs) (height - rs) rs rs (embedBits imageData binary)

/-- The metadata object constructed inside `applyWatermark`. -/
def watermarkMetadataOf (env : Env) (sessionId : List Char) (timestampIso : List Char)
    (email : List Char) : WatermarkMetadata :=
  { sessionId := sessionId
    emailHash := hashEmail env email
    timestamp := timestampIso
    purpose := ("driver_registration".data)
    platform := ("deligo_website".data) }

/-- Model of `applyWatermark` (watermark module). Thrown errors are
`Except.error` with the thrown message. -/
def applyWatermark (env : Env) (file : JsFile) (options : WatermarkOptions) :
    Except (List Char) WatermarkedDocument :=
  let visibleWatermark := options.visibleWatermark.getD true
  let opacity := options.opacity.getD 15
  if file.type ∉ [("image/jpeg".data), ("image/png".data), ("image/jpg".data)] then
    Except.error ("Watermarking only supports JPEG and PNG images".data)
  else
    let decoded := env.decodeImage file.content
    let width := decoded.1
    let height := decoded.2.1
    let image := decoded.2.2
    (if env.ctx2dAvailable = false then
        Except.error ("Canvas context not available".data)
      else
        let metadata := watermarkMetadataOf env options.sessionId options.timestamp.iso
          options.email
        let ctxAfterInvisible := applyInvisibleWatermark image metadata width height
        let ctxFinal :=
          if visibleWatermark then
            let watermarkText := options.watermarkText.getD
              (("DÉLIGO - ".data) ++ maskEmail options.email ++ (" - ".data) ++
                options.timestamp.localeGB)
            env.renderVisible watermarkText width height opacity ctxAfterInvisible
          else ctxAfterInvisible
        let mimeType := if file.type = ("image/png".data) then ("image/png".data)
          else ("image/jpeg".data)
        let quality : Option Nat := if mimeType = ("image/jpeg".data) then some 92
          else none
        let dataUrl := ("data:".data) ++ mimeType ++ (";base64,".data) ++
          arrayBufferToBase64 (env.encodeImage mimeType quality ctxFinal width height)
        let metadataHash := generateMetadataHash env metadata
        Except.ok
          { data := dataUrl
            originalName := file.name
            mimeType := mimeType
            metadataHash := metadataHash
            processedAt := options.timestamp.iso })

/-- Model of `applyPdfWatermark` (watermark module): base64 the original
bytes into a data URL and flag server-side watermarking. -/
def applyPdfWatermark (env : Env) (file : JsFile) (options : WatermarkOptions) :
    PdfWatermarkResult :=
  let base64 := arrayBufferToBase64 file.content
  { data := ("data:application/pdf;base64,".data) ++ base64
    requiresServerProcessing := true
    metadata :=
      { sessionId := options.sessionId
        emailHash := hashEmail env options.email
        timestamp := options.timestamp.iso
        purpose := ("driver_registration".data)
        requiresServerWatermark := true } }

/-- Model of `processDocument` (watermark module): route by MIME type;
thrown errors (including those propagated from `applyWatermark` and from
`atob` inside `dataUrlToBlob`) are `Except.error`. -/
def processDocument (env : Env) (file : JsFile) (options : ProcessDocumentOptions) :
    Except (List Char) ProcessedDocument :=
  let timestamp := env.now
  let sessionId := env.randomUUID
  let watermarkOptions : WatermarkOptions :=
    { sessionId := sessionId
      email := options.userEmail
      timestamp := timestamp
      visibleWatermark := some (options.addVisibleWatermark.getD true)
      watermarkText := none
      opacity := none }
  if file.type = ("application/pdf".data) then
    let result := applyPdfWatermark env file watermarkOptions
    match dataUrlToBlob result.data with
    | some blob =>
        Except.ok
          { blob := blob
            originalName := file.name
            mimeType := file.type
            metadataHash := none
            watermarkId := some sessionId
            processedAt := timestamp.iso }
    | none => Except.error ("InvalidCharacterError".data)
  else if file.type ∈ [("image/jpeg".data), ("image/png".data), ("image/jpg".data)] then
    match applyWatermark env file watermarkOptions with
    | Except.error e => Except.error e
    | Except.ok result =>
      match dataUrlToBlob result.data with
      | some blob =>
          Except.ok
            { blob := blob
              originalName := result.originalName
              mimeType := result.mimeType
              metadataHash := some result.metadataHash
              watermarkId := some sessionId
              processedAt := result.processedAt }
      | none => Except.error ("InvalidCharacterError".data)
  else
    Except.error (("Unsupported file type: ".data) ++ file.type)

/-- IV length in bytes (`IV_LENGTH` in `encryption.ts`): 96 bits. -/
def IV_LENGTH : Nat := 12

/-- Model of `encryptData` (`encryption.ts`): draw a fresh IV from the
entropy stream (`crypto.getRandomValues(new Uint8Array(12))`), encrypt,
concatenate IV and ciphertext-with-tag, base64. Returns the package and
the advanced entropy stream. -/
def encryptData (env : Env) (key : List Nat) (data : List Nat) (rng : Nat → Nat) :
    List Char × (Nat → Nat) :=
  let iv := (List.range IV_LENGTH).map rng
  let ciphertext := env.aesGcmEncrypt key iv data
  let combined := iv ++ ciphertext
  (arrayBufferToBase64 combined, fun n => rng (n + IV_LENGTH))

/-- API field mapping of `handleDocumentsSubmit` (registration
component): `apiFieldMap[docType] || docType`. -/
def apiFieldMap (docType : List Char) : List Char :=
  if docType = ("drivingLicense".data) then ("driving_license".data)
  else if docType = ("vehicleRegistration".data) then ("vehicle_registration".data)
  else if docType = ("insuranceDocument".data) then ("insurance_document".data)
  else if docType = ("workPatent".data) then ("work_patent".data)
  else docType

/-- Base64 payload obtained in `handleDocumentsSubmit` by
`FileReader.readAsDataURL` followed by `result.split(',')[1]`: the
reader yields `data:<mime>;base64,<payload>` and the payload is the
base64 of the content (base64 output contains no comma). -/
def readerBase64 (content : List Nat) : List Char := arrayBufferToBase64 content

/-- The `ProcessDocumentOptions` built for each document inside
`handleDocumentsSubmit` (both watermark flags on). -/
def submitOptions (email docType : List Char) : ProcessDocumentOptions :=
  { userEmail := email
    documentType := docType
    addVisibleWatermark := some true
    addInvisibleWatermark := some true }

/-- One iteration of the document loop in `handleDocumentsSubmit`: call
`processDocument` inside `try`, base64 the processed blob on success,
and on any thrown error fall back to the base64 of the original file;
either way the entry is keyed by the mapped API field name. -/
def processDocEntry (env : Env) (email : List Char) (docType : List Char)
    (file : JsFile) : List Char × List Char :=
  match processDocument env file (submitOptions email docType) with
  | Except.ok pd => (apiFieldMap docType, readerBase64 pd.blob.content)
  | Except.error _ => (apiFieldMap docType, readerBase64 file.content)

/-- The sequential document loop of `handleDocumentsSubmit` over the
entries with a selected file: builds the submission payload entries in
order and counts `processed++` (incremented after the per-document
try/catch, hence once per document on both paths). -/
def handleDocumentsLoop (env : Env) (email : List Char) :
    List (List Char × JsFile) → List (List Char × List Char) × Nat
  | [] => ([], 0)
  | (docType, file) :: rest =>
      let entry := processDocEntry env email docType file
      let tail := handleDocumentsLoop env email rest
      (entry :: tail.1, tail.2 + 1)

/-- Raster indexing into an extracted region. -/
theorem getImageData_getD (img : Nat × Nat → Pix) (x0 y0 w h j : Nat) (d : Pix)
    (hj : j < w * h) :
    (getImageData img x0 y0 w h).getD j d = img (x0 + j % w, y0 + j / w) := by
  rw [getImageData, List.getD_eq_getElem _ _ (by simpa using hj)]
  simp

/-- The region buffer has one entry per region pixel. -/
theorem getImageData_length (img : Nat × Nat → Pix) (x0 y0 w h : Nat) :
    (getImageData img x0 y0 w h).length = w * h := by
  simp [getImageData]

/-- Embedding does not change the buffer length. -/
theorem embedBits_length (ps : List Pix) (bits : List Char) :
    (embedBits ps bits).length = ps.length := by
  induction ps generalizing bits with
  | nil => cases bits <;> rfl
  | cons p ps ih =>
      cases bits with
      | nil => rfl
      | cons bit rest => simp [embedBits, ih]

/-- Pointwise description of the embedding loop: position `j` carries
the `j`-th bit while bits remain, and is untouched afterwards. -/
theorem embedBits_getD (ps : List Pix) (bits : List Char) (j : Nat) (d : Pix)
    (hj : j < ps.length) :
    (embedBits ps bits).getD j d =
      if j < bits.length then
        setBlueLsb (ps.getD j d) (parseBinDigit (bits.getD j '0'))
      else ps.getD j d := by
  induction ps generalizing bits j with
  | nil => simp at hj
  | cons p ps ih =>
      cases bits with
      | nil => simp [embedBits]
      | cons bit rest =>
          cases j with
          | zero => simp [embedBits]
          | succ k =>
              have hk : k < ps.length := by simpa using hj
              simp only [embedBits, List.getD_cons_succ, ih rest k hk,
                List.length_cons]
              by_cases hlt : k < rest.length
              · rw [if_pos hlt, if_pos (by omega)]
              · rw [if_neg hlt, if_neg (by omega)]

set_option maxRecDepth 40000 in
/-- Blue-channel LSB overwrite, arithmetically: for a byte value and a
bit, `(b & 0xFE) | bit = 2 * (b / 2) + bit`. -/
theorem land_lor_bit_fin :
    ∀ b : Fin 256, ∀ bit : Fin 2,
      Nat.lor (Nat.land b.val 254) bit.val = 2 * (b.val / 2) + bit.val := by
  decide

/-- Blue-channel LSB overwrite, `Nat` form. -/
theorem land_lor_bit (b bit : Nat) (hb : b < 256) (hbit : bit < 2) :
    Nat.lor (Nat.land b 254) bit = 2 * (b / 2) + bit :=
  land_lor_bit_fin ⟨b, hb⟩ ⟨bit, hbit⟩

/-- Every character produced by base-2 digit expansion is `0` or `1`. -/
theorem natToStringBaseAux_two_mem (fuel n : Nat) :
    ∀ c ∈ natToStringBaseAux 2 fuel n, c = '0' ∨ c = '1' := by
  induction fuel generalizing n with
  | zero => intro c hc; simp [natToStringBaseAux] at hc
  | succ fuel ih =>
      intro c hc
      rw [natToStringBaseAux] at hc
      by_cases h2 : n < 2
      · rw [if_pos h2] at hc
        interval_cases n <;> simp_all [digitChar]
      · rw [if_neg h2] at hc
        rcases List.mem_append.mp hc with h | h
        · exact ih (n / 2) c h
        · have : n % 2 < 2 := Nat.mod_lt _ (by omega)
          interval_cases hm : n % 2 <;> simp_all [digitChar]

/-- Every character of a `textToBinary` output is `0` or `1`. -/
theorem textToBinary_mem (s : List Char) :
    ∀ c ∈ textToBinary s, c = '0' ∨ c = '1' := by
  intro c hc
  rw [textToBinary] at hc
  rcases List.mem_flatten.mp hc with ⟨blk, hblk, hcblk⟩
  rcases List.mem_map.mp hblk with ⟨ch, _, rfl⟩
  rcases List.mem_append.mp hcblk with h | h
  · left
    exact (List.eq_of_mem_replicate h)
  · exact natToStringBaseAux_two_mem _ _ c h

/-- A binary digit character parses below 2. -/
theorem parseBinDigit_lt_two (c : Char) (h : c = '0' ∨ c = '1') :
    parseBinDigit c < 2 := by
  rcases h with rfl | rfl <;> decide

set_option maxRecDepth 40000 in
/-- A char code below 256 yields exactly 8 binary digits after padding. -/
theorem padStart8_length_fin :
    ∀ n : Fin 256, (padStart 8 '0' (natToStringBase 2 n.val)).length = 8 := by
  decide

set_option maxRecDepth 40000 in
/-- The padded base-2 digits of a byte are its bits, most significant
first: digit `k` is `n / 2^(7-k) % 2`. -/
theorem padStart8_getD_fin :
    ∀ n : Fin 256, ∀ k : Fin 8,
      parseBinDigit ((padStart 8 '0' (natToStringBase 2 n.val)).getD k.val '0') =
        n.val / 2 ^ (7 - k.val) % 2 := by
  decide

/-- Indexing into a concatenation of blocks of length 8. -/
theorem flatten_getD_blocks (L : List (List Char)) (hlen : ∀ l ∈ L, l.length = 8)
    (j : Nat) (d : Char) (hj : j < 8 * L.length) :
    L.flatten.getD j d = (L.getD (j / 8) []).getD (j % 8) d := by
  induction L generalizing j with
  | nil => simp at hj
  | cons blk L ih =>
      have hblk : blk.length = 8 := hlen blk (by simp)
      rw [List.flatten_cons]
      by_cases h8 : j < 8
      · rw [List.getD_append _ _ _ _ (by omega),
          Nat.div_eq_of_lt h8, Nat.mod_eq_of_lt h8, List.getD_cons_zero]
      · have hlen' : ∀ l ∈ L, l.length = 8 := fun l hl => hlen l (by simp [hl])
        have hj' : j - 8 < 8 * L.length := by
          simp only [List.length_cons] at hj
          omega
        rw [List.getD_append_right _ _ _ _ (by omega), hblk, ih hlen' (j - 8) hj']
        have hdiv : j / 8 = (j - 8) / 8 + 1 := by omega
        have hmod : j % 8 = (j - 8) % 8 := by omega
        rw [hdiv, hmod, List.getD_cons_succ]

/-- The serialized bit string of an all-byte text has 8 bits per
character. -/
theorem textToBinary_length (s : List Char) (h : ∀ c ∈ s, c.toNat < 256) :
    (textToBinary s).length = 8 * s.length := by
  induction s with
  | nil => rfl
  | cons c rest ih =>
      have hc : c.toNat < 256 := h c (by simp)
      have hrest : ∀ x ∈ rest, x.toNat < 256 := fun x hx => h x (by simp [hx])
      have ih' := ih hrest
      rw [textToBinary] at ih' ⊢
      rw [List.map_cons, List.flatten_cons, List.length_append, ih',
        padStart8_length_fin ⟨c.toNat, hc⟩, List.length_cons]
      ring

/-- Bit `j` of the serialized bit string of an all-byte text is bit
`7 - j % 8` of character `j / 8`, most significant bit first. -/
theorem textToBinary_getD (s : List Char) (h : ∀ c ∈ s, c.toNat < 256) (j : Nat)
    (hj : j < (textToBinary s).length) :
    parseBinDigit ((textToBinary s).getD j '0') =
      (s.getD (j / 8) ' ').toNat / 2 ^ (7 - j % 8) % 2 := by
  have hlen8 : ∀ l ∈ s.map (fun char => padStart 8 '0' (natToStringBase 2 char.toNat)),
      l.length = 8 := by
    intro l hl
    rcases List.mem_map.mp hl with ⟨c, hc, rfl⟩
    exact padStart8_length_fin ⟨c.toNat, h c hc⟩
  have hjlen : j < 8 * s.length := by
    rw [textToBinary_length s h] at hj
    exact hj
  rw [textToBinary, flatten_getD_blocks _ hlen8 j '0' (by simpa using hjlen)]
  have hdiv : j / 8 < s.length := by omega
  rw [List.getD_eq_getElem
        (s.map (fun char => padStart 8 '0' (natToStringBase 2 char.toNat))) []
        (by simpa using hdiv),
    List.getElem_map, List.getD_eq_getElem s ' ' hdiv]
  exact padStart8_getD_fin ⟨_, h _ (List.getElem_mem hdiv)⟩ ⟨j % 8, by omega⟩

/-- Value of the invisible watermark at raster position `j` of the
reserved region: the `j`-th embedded pixel while bits remain, the
original pixel afterwards. -/
theorem applyInvisibleWatermark_at (img : Nat × Nat → Pix) (m : WatermarkMetadata)
    (width height rs x0 y0 j : Nat) (bits : List Char)
    (hrs : rs = regionSize width height) (hx0 : x0 = width - rs)
    (hy0 : y0 = height - rs) (hbits : bits = textToBinary (jsonStringifyMetadata m))
    (hj : j < rs * rs) :
    applyInvisibleWatermark img m width height (x0 + j % rs, y0 + j / rs) =
      if j < bits.length then
        setBlueLsb (img (x0 + j % rs, y0 + j / rs))
          (parseBinDigit (bits.getD j '0'))
      else img (x0 + j % rs, y0 + j / rs) := by
  subst hrs hx0 hy0 hbits
  have hrspos : 0 < regionSize width height := by
    rcases Nat.eq_zero_or_pos (regionSize width height) with h0 | h
    · rw [h0] at hj
      simp at hj
    · exact h
  have hmod := Nat.mod_lt j hrspos
  have hdiv : j / regionSize width height < regionSize width height :=
    (Nat.div_lt_iff_lt_mul hrspos).mpr hj
  simp only [applyInvisibleWatermark, putImageData]
  rw [if_pos ⟨Nat.le_add_right _ _, Nat.add_lt_add_left hmod _,
    Nat.le_add_right _ _, Nat.add_lt_add_left hdiv _⟩]
  have hidx : (height - regionSize width height + j / regionSize width height -
      (height - regionSize width height)) * regionSize width height +
      (width - regionSize width height + j % regionSize width height -
      (width - regionSize width height)) = j := by
    rw [Nat.add_sub_cancel_left, Nat.add_sub_cancel_left, Nat.mul_comm]
    exact Nat.div_add_mod j (regionSize width height)
  rw [hidx, embedBits_getD _ _ _ _ (by rw [getImageData_length]; exact hj),
    getImageData_getD _ _ _ _ _ _ _ hj]

/-- The invisible watermark leaves every pixel outside the reserved
region unchanged. -/
theorem applyInvisibleWatermark_outside (img : Nat × Nat → Pix)
    (m : WatermarkMetadata) (width height rs x0 y0 x y : Nat)
    (hrs : rs = regionSize width height) (hx0 : x0 = width - rs)
    (hy0 : y0 = height - rs)
    (hout : x < x0 ∨ x0 + rs ≤ x ∨ y < y0 ∨ y0 + rs ≤ y) :
    applyInvisibleWatermark img m width height (x, y) = img (x, y) := by
  subst hrs hx0 hy0
  simp only [applyInvisibleWatermark, putImageData]
  rw [if_neg]
  rintro ⟨h1, h2, h3, h4⟩
  rcases hout with h | h | h | h <;> omega

/-- Claim C2: for every decoded RGBA image and metadata object whose
serialization is `B` bits, when the reserved bottom-right region has at
least `B` pixels, `applyInvisibleWatermark` overwrites exactly the
blue-channel LSBs of the first `B` region pixels in raster order with
the metadata's bits (8 bits per character, most significant bit first),
stops after `B` bits, and changes no other bit of any channel of any
pixel, inside or outside the region. -/
theorem C2_invisible_watermark_embeds_exactly (img : Nat × Nat → Pix)
    (m : WatermarkMetadata) (width height rs x0 y0 : Nat) (bits : List Char)
    (hrs : rs = regionSize width height) (hx0 : x0 = width - rs)
    (hy0 : y0 = height - rs)
    (hbits : bits = textToBinary (jsonStringifyMetadata m))
    (hblue : ∀ p : Nat × Nat, (img p).b < 256)
    (hcap : bits.length ≤ rs * rs) :
    (∀ j, j < bits.length →
      parseBinDigit (bits.getD j '0') < 2 ∧
      (applyInvisibleWatermark img m width height (x0 + j % rs, y0 + j / rs)).r =
        (img (x0 + j % rs, y0 + j / rs)).r ∧
      (applyInvisibleWatermark img m width height (x0 + j % rs, y0 + j / rs)).g =
        (img (x0 + j % rs, y0 + j / rs)).g ∧
      (applyInvisibleWatermark img m width height (x0 + j % rs, y0 + j / rs)).a =
        (img (x0 + j % rs, y0 + j / rs)).a ∧
      (applyInvisibleWatermark img m width height (x0 + j % rs, y0 + j / rs)).b % 2 =
        parseBinDigit (bits.getD j '0') ∧
      (applyInvisibleWatermark img m width height (x0 + j % rs, y0 + j / rs)).b / 2 =
        (img (x0 + j % rs, y0 + j / rs)).b / 2) ∧
    (∀ j, bits.length ≤ j → j < rs * rs →
      applyInvisibleWatermark img m width height (x0 + j % rs, y0 + j / rs) =
        img (x0 + j % rs, y0 + j / rs)) ∧
    (∀ x y, (x < x0 ∨ x0 + rs ≤ x ∨ y < y0 ∨ y0 + rs ≤ y) →
      applyInvisibleWatermark img m width height (x, y) = img (x, y)) ∧
    ((∀ c ∈ jsonStringifyMetadata m, c.toNat < 256) →
      bits.length = 8 * (jsonStringifyMetadata m).length ∧
      ∀ j, j < bits.length →
        parseBinDigit (bits.getD j '0') =
          ((jsonStringifyMetadata m).getD (j / 8) ' ').toNat / 2 ^ (7 - j % 8) % 2) := by
  refine ⟨?_, ?_, ?_, ?_⟩
  · intro j hj
    have hjr : j < rs * rs := lt_of_lt_of_le hj hcap
    have hbit : parseBinDigit (bits.getD j '0') < 2 := by
      apply parseBinDigit_lt_two
      apply textToBinary_mem (jsonStringifyMetadata m)
      rw [← hbits, List.getD_eq_getElem _ _ hj]
      exact List.getElem_mem hj
    have hat := applyInvisibleWatermark_at img m width height rs x0 y0 j bits hrs
      hx0 hy0 hbits hjr
    rw [if_pos hj] at hat
    rw [hat]
    have hb := land_lor_bit (img (x0 + j % rs, y0 + j / rs)).b
      (parseBinDigit (bits.getD j '0')) (hblue _) hbit
    refine ⟨hbit, rfl, rfl, rfl, ?_, ?_⟩
    · simp only [setBlueLsb, hb]
      omega
    · simp only [setBlueLsb, hb]
      omega
  · intro j hjb hjr
    have hat := applyInvisibleWatermark_at img m width height rs x0 y0 j bits hrs
      hx0 hy0 hbits hjr
    rw [if_neg (by omega)] at hat
    exact hat
  · intro x y hout
    exact applyInvisibleWatermark_outside img m width height rs x0 y0 x y hrs
      hx0 hy0 hout
  · intro hascii
    subst hbits
    exact ⟨textToBinary_length _ hascii, fun j hj => textToBinary_getD _ hascii j hj⟩

/-- The comma never occurs in base64 output. -/
theorem comma_not_in_b64Encode (bs : List Nat) : ',' ∉ b64Encode bs := by
  intro h
  rcases b64Encode_mem bs ',' h with hmem | heq
  · exact (by decide : ',' ∉ b64Alphabet) hmem
  · cases heq

/-- Taking up to a stop character across an append. -/
theorem takeWhile_append_stop (p : Char → Bool) (l1 l2 : List Char) (a : Char)
    (h1 : ∀ c ∈ l1, p c = true) (ha : p a = false) :
    (l1 ++ a :: l2).takeWhile p = l1 := by
  induction l1 with
  | nil => simp [List.takeWhile_cons, ha]
  | cons c rest ih =>
      have hc : p c = true := h1 c (by simp)
      have hrest : ∀ x ∈ rest, p x = true := fun x hx => h1 x (by simp [hx])
      simp [List.takeWhile_cons, hc, ih hrest]

/-- Parsing the declared MIME type out of a canonical
`data:<mime>;base64` prefix. -/
theorem matchMime_canonical (mime : List Char) (h2 : ';' ∉ mime) :
    matchMime (("data:".data) ++ mime ++ (";base64".data)) = some mime := by
  rw [matchMime]
  have hshape : ("data:".data) ++ mime ++ (";base64".data) =
      'd' :: 'a' :: 't' :: 'a' :: ':' :: (mime ++ (";base64".data)) := rfl
  rw [hshape, List.dropWhile_cons_of_pos (by decide),
    List.dropWhile_cons_of_pos (by decide), List.dropWhile_cons_of_pos (by decide),
    List.dropWhile_cons_of_pos (by decide), List.dropWhile_cons_of_neg (by decide)]
  have hsemi : ';' ∈ mime ++ (";base64".data) := by
    apply List.mem_append_right
    decide
  show (if ';' ∈ mime ++ (";base64".data) then
      some ((mime ++ (";base64".data)).takeWhile (fun c => !(c = ';')))
    else none) = some mime
  rw [if_pos hsemi]
  have hshape2 : mime ++ (";base64".data) = mime ++ ';' :: ("base64".data) := rfl
  rw [hshape2, takeWhile_append_stop _ mime _ ';'
    (fun c hc => by simp; exact fun hcc => h2 (hcc ▸ hc)) (by decide)]

/-- Behaviour of `dataUrlToBlob` on a string with exactly one comma and
a valid base64 payload: it succeeds with the decoded payload bytes and
the MIME type parsed from the prefix (defaulting when the prefix does
not match the pattern). -/
theorem dataUrlToBlob_wellformed (p0 : List Char) (bytes : List Nat)
    (hb : ∀ b ∈ bytes, b < 256) (hcomma : ',' ∉ p0) :
    dataUrlToBlob (p0 ++ ',' :: b64Encode bytes) =
      some { type := (matchMime p0).getD ("application/octet-stream".data)
             content := bytes } := by
  rw [dataUrlToBlob]
  rw [jsSplit_single ',' p0 (b64Encode bytes) hcomma (comma_not_in_b64Encode bytes)]
  simp only [List.getD_cons_zero, List.getD_cons_succ]
  rw [b64Decode_b64Encode bytes hb]

/-- Behaviour of `dataUrlToBlob` on a string with exactly one comma and
an invalid base64 payload: `atob` throws. -/
theorem dataUrlToBlob_badPayload (p0 payload : List Char) (hcp : ',' ∉ p0)
    (hcp2 : ',' ∉ payload) (hbad : b64Decode payload = none) :
    dataUrlToBlob (p0 ++ ',' :: payload) = none := by
  rw [dataUrlToBlob]
  rw [jsSplit_single ',' p0 payload hcp hcp2]
  simp only [List.getD_cons_zero, List.getD_cons_succ]
  rw [hbad]

/-- Indexing into a mapped range. -/
theorem range_map_getD (f : Nat → Nat) (n i d : Nat) (h : i < n) :
    ((List.range n).map f).getD i d = f i := by
  rw [List.getD_eq_getElem _ _ (by simpa using h)]
  simp

/-- Each digit character lies in the radix alphabet. -/
theorem digitChar_mem (n : Nat) :
    digitChar n ∈ ("0123456789abcdefghijklmnopqrstuvwxyz".data) := by
  by_cases h : n < ("0123456789abcdefghijklmnopqrstuvwxyz".data).length
  · rw [digitChar, List.getD_eq_getElem _ _ h]
    exact List.getElem_mem h
  · rw [digitChar, List.getD_eq_default _ _ (le_of_not_lt h)]
    decide

/-- Every character of a radix expansion is a digit character. -/
theorem natToStringBaseAux_mem (base fuel n : Nat) :
    ∀ c ∈ natToStringBaseAux base fuel n,
      c ∈ ("0123456789abcdefghijklmnopqrstuvwxyz".data) := by
  induction fuel generalizing n with
  | zero => intro c hc; simp [natToStringBaseAux] at hc
  | succ fuel ih =>
      intro c hc
      rw [natToStringBaseAux] at hc
      by_cases hn : n < base
      · rw [if_pos hn] at hc
        simp only [List.mem_singleton] at hc
        exact hc ▸ digitChar_mem n
      · rw [if_neg hn] at hc
        rcases List.mem_append.mp hc with h | h
        · exact ih (n / base) c h
        · simp only [List.mem_singleton] at h
          exact h ▸ digitChar_mem (n % base)

/-- Every character of a hex rendering is a digit character. -/
theorem arrayBufferToHex_mem (bs : List Nat) :
    ∀ c ∈ arrayBufferToHex bs,
      c ∈ ("0123456789abcdefghijklmnopqrstuvwxyz".data) := by
  intro c hc
  rw [arrayBufferToHex] at hc
  rcases List.mem_flatten.mp hc with ⟨blk, hblk, hcblk⟩
  rcases List.mem_map.mp hblk with ⟨b, _, rfl⟩
  rcases List.mem_append.mp hcblk with h | h
  · have := List.eq_of_mem_replicate h
    subst this
    decide
  · exact natToStringBaseAux_mem 16 _ _ c h

set_option maxRecDepth 40000 in
/-- A byte renders as exactly two hex characters. -/
theorem byteToHex_length_fin :
    ∀ b : Fin 256, (padStart 2 '0' (natToStringBase 16 b.val)).length = 2 := by
  decide

/-- The hex rendering of a byte buffer has two characters per byte. -/
theorem arrayBufferToHex_length (bs : List Nat) (h : ∀ b ∈ bs, b < 256) :
    (arrayBufferToHex bs).length = 2 * bs.length := by
  induction bs with
  | nil => rfl
  | cons b rest ih =>
      have hb : b < 256 := h b (by simp)
      have hrest : ∀ x ∈ rest, x < 256 := fun x hx => h x (by simp [hx])
      have ih' := ih hrest
      rw [arrayBufferToHex] at ih' ⊢
      rw [List.map_cons, List.flatten_cons, List.length_append, ih',
        byteToHex_length_fin ⟨b, hb⟩, List.length_cons]
      ring

/-- Characters of an escaped JSON value come from the value, or are the
escape characters. -/
theorem jsonEscape_mem (ch : Char) (s : List Char) (h : ch ∈ jsonEscape s) :
    ch = '\\' ∨ ch = '"' ∨ ch ∈ s := by
  rw [jsonEscape] at h
  rcases List.mem_flatten.mp h with ⟨blk, hblk, hcblk⟩
  rcases List.mem_map.mp hblk with ⟨c, hc, rfl⟩
  rw [jsonEscapeChar] at hcblk
  by_cases h1 : c = '"'
  · rw [if_pos h1] at hcblk
    simp only [List.mem_cons, List.not_mem_nil, or_false] at hcblk
    rcases hcblk with h' | h'
    · exact Or.inl h'
    · exact Or.inr (Or.inl h')
  · rw [if_neg h1] at hcblk
    by_cases h2 : c = '\\'
    · rw [if_pos h2] at hcblk
      simp only [List.mem_cons, List.not_mem_nil, or_false] at hcblk
      rcases hcblk with h' | h'
      · exact Or.inl h'
      · exact Or.inl h'
    · rw [if_neg h2] at hcblk
      simp only [List.mem_singleton] at hcblk
      exact Or.inr (Or.inr (hcblk ▸ hc))

/-- A character absent from a value and distinct from the JSON escape
characters is absent from the value's JSON string literal. -/
theorem jsonStr_not_mem (ch : Char) (h1 : ch ≠ '\\') (h2 : ch ≠ '"')
    (s : List Char) (hs : ch ∉ s) : ch ∉ jsonStr s := by
  rw [jsonStr]
  intro h
  rcases List.mem_cons.mp h with h' | h'
  · exact h2 h'
  · rcases List.mem_append.mp h' with h'' | h''
    · rcases jsonEscape_mem ch s h'' with h3 | h3 | h3
      · exact h1 h3
      · exact h2 h3
      · exact hs h3
    · simp only [List.mem_singleton] at h''
      exact h2 h''

/-- The truncated email hash consists of radix digit characters only. -/
theorem hashEmail_mem (env : Env) (email : List Char) :
    ∀ c ∈ hashEmail env email,
      c ∈ ("0123456789abcdefghijklmnopqrstuvwxyz".data) := by
  intro c hc
  exact arrayBufferToHex_mem _ c (List.take_subset _ _ hc)

/-- Claim C4: for every byte sequence `b`, including the empty one,
`base64ToArrayBuffer (arrayBufferToBase64 b) = b` — the `encryption.ts`
base64 codec pair round-trips exactly, byte for byte. -/
theorem C4_base64_roundtrip (b : List Nat) (h : ∀ x ∈ b, x < 256) :
    base64ToArrayBuffer (arrayBufferToBase64 b) = some b :=
  b64Decode_b64Encode b h

/-- Claim C4 witness: the round trip on the empty buffer and on a
buffer exercising all padding shapes. -/
theorem C4_base64_roundtrip_witness :
    base64ToArrayBuffer (arrayBufferToBase64 []) = some [] ∧
    base64ToArrayBuffer (arrayBufferToBase64 [0, 1, 2, 127, 128, 254, 255]) =
      some [0, 1, 2, 127, 128, 254, 255] :=
  ⟨C4_base64_roundtrip [] (by decide),
   C4_base64_roundtrip [0, 1, 2, 127, 128, 254, 255] (by decide)⟩

/-- Claim C5: `processDocument` on a file whose MIME type is neither
JPEG, PNG nor PDF throws the unsupported-file-type error naming the
offending MIME type, producing no document. -/
theorem C5_unsupported_format_rejected (env : Env) (file : JsFile)
    (options : ProcessDocumentOptions)
    (hpdf : file.type ≠ ("application/pdf".data))
    (hjpeg : file.type ≠ ("image/jpeg".data))
    (hpng : file.type ≠ ("image/png".data))
    (hjpg : file.type ≠ ("image/jpg".data)) :
    processDocument env file options =
      Except.error (("Unsupported file type: ".data) ++ file.type) := by
  have hmem : file.type ∉
      [("image/jpeg".data), ("image/png".data), ("image/jpg".data)] := by
    simp [hjpeg, hpng, hjpg]
  simp only [processDocument]
  rw [if_neg hpdf, if_neg hmem]

/-- A fixed concrete environment for witnesses (canvas available). -/
def testEnv : Env :=
  { ctx2dAvailable := true
    sha256 := fun _ => List.range 32
    aesGcmEncrypt := fun _ _ data => data ++ [9, 9]
    decodeImage := fun _ => (4, 4, fun _ => { r := 1, g := 2, b := 3, a := 255 })
    encodeImage := fun _ _ _ _ _ => [80, 81]
    renderVisible := fun _ _ _ _ image => image
    randomUUID := ("b2fcf3f2".data)
    now := { iso := ("2026-10-11T00:00:00.000Z".data)
             localeGB := ("11/10/2026".data) } }

/-- Claim C5 witness: a `text/plain` file is rejected with the error
naming `text/plain`. -/
theorem C5_unsupported_format_witness :
    processDocument testEnv
        { name := ("notes.txt".data), type := ("text/plain".data),
          content := [104, 105] }
        (submitOptions ("jane.doe@example.com".data) ("drivingLicense".data)) =
      Except.error (("Unsupported file type: ".data) ++ ("text/plain".data)) :=
  C5_unsupported_format_rejected testEnv _ _ (by decide) (by decide) (by decide)
    (by decide)

/-- Claim C9: the embedded email hash is exactly the first 16 hex
characters (64 bits) of the SHA-256 digest of the lowercased email, so
two emails differing only in letter case hash identically. -/
theorem C9_hashEmail_lowercase_truncated (env : Env) (e1 e2 : List Char)
    (hlen : (env.sha256 (utf8Encode (e1.map Char.toLower))).length = 32)
    (hbytes : ∀ b ∈ env.sha256 (utf8Encode (e1.map Char.toLower)), b < 256)
    (hcase : e1.map Char.toLower = e2.map Char.toLower) :
    hashEmail env e1 =
      (arrayBufferToHex (env.sha256 (utf8Encode (e1.map Char.toLower)))).take 16 ∧
    (hashEmail env e1).length = 16 ∧
    hashEmail env e1 = hashEmail env e2 := by
  refine ⟨rfl, ?_, ?_⟩
  · rw [hashEmail, List.length_take, arrayBufferToHex_length _ hbytes, hlen]
    decide
  · rw [hashEmail, hashEmail, hcase]

/-- Claim C9 witness: a mixed-case and a lowercase spelling of the same
address hash identically, and the hash has 16 characters. -/
theorem C9_hashEmail_witness :
    hashEmail testEnv ("Jane.Doe@Example.COM".data) =
      hashEmail testEnv ("jane.doe@example.com".data) ∧
    (hashEmail testEnv ("Jane.Doe@Example.COM".data)).length = 16 :=
  ⟨(C9_hashEmail_lowercase_truncated testEnv ("Jane.Doe@Example.COM".data)
      ("jane.doe@example.com".data) (by decide) (by decide) (by decide)).2.2,
   (C9_hashEmail_lowercase_truncated testEnv ("Jane.Doe@Example.COM".data)
      ("jane.doe@example.com".data) (by decide) (by decide) (by decide)).2.1⟩

/-- Claim C6: the embedded metadata depends on the submitter email only
through `hashEmail` — equal hashes give identical metadata, identical
metadata hash and identical embedded bit string — and the plaintext
email (which contains `@`) never occurs in the serialized metadata,
whose components are `@`-free. -/
theorem C6_metadata_email_privacy (env : Env) (sid ts e1 e2 : List Char)
    (hsid : '@' ∉ sid) (hts : '@' ∉ ts) (hat : '@' ∈ e1) :
    (hashEmail env e1 = hashEmail env e2 →
      watermarkMetadataOf env sid ts e1 = watermarkMetadataOf env sid ts e2 ∧
      generateMetadataHash env (watermarkMetadataOf env sid ts e1) =
        generateMetadataHash env (watermarkMetadataOf env sid ts e2) ∧
      textToBinary (jsonStringifyMetadata (watermarkMetadataOf env sid ts e1)) =
        textToBinary (jsonStringifyMetadata (watermarkMetadataOf env sid ts e2))) ∧
    ¬ ∃ l r, jsonStringifyMetadata (watermarkMetadataOf env sid ts e1) =
        l ++ e1 ++ r := by
  constructor
  · intro hh
    have meq : watermarkMetadataOf env sid ts e1 = watermarkMetadataOf env sid ts e2 := by
      rw [watermarkMetadataOf, watermarkMetadataOf, hh]
    exact ⟨meq, by rw [meq], by rw [meq]⟩
  · have hhash : '@' ∉ hashEmail env e1 := by
      intro h
      exact (by decide : '@' ∉ ("0123456789abcdefghijklmnopqrstuvwxyz".data))
        (hashEmail_mem env e1 '@' h)
    have hno : '@' ∉ jsonStringifyMetadata (watermarkMetadataOf env sid ts e1) := by
      rw [jsonStringifyMetadata, watermarkMetadataOf]
      simp only [List.mem_append, not_or]
      refine ⟨⟨⟨⟨⟨⟨⟨⟨⟨⟨?_, ?_⟩, ?_⟩, ?_⟩, ?_⟩, ?_⟩, ?_⟩, ?_⟩, ?_⟩, ?_⟩, ?_⟩
      · decide
      · exact jsonStr_not_mem '@' (by decide) (by decide) sid hsid
      · decide
      · exact jsonStr_not_mem '@' (by decide) (by decide) _ hhash
      · decide
      · exact jsonStr_not_mem '@' (by decide) (by decide) ts hts
      · decide
      · exact jsonStr_not_mem '@' (by decide) (by decide) _ (by decide)
      · decide
      · exact jsonStr_not_mem '@' (by decide) (by decide) _ (by decide)
      · decide
    rintro ⟨l, r, heq⟩
    apply hno
    rw [heq]
    exact List.mem_append.mpr (Or.inl (List.mem_append.mpr (Or.inr hat)))

/-- Claim C6 witness: two distinct addresses with (under the fixed test
digest) equal hashes give identical metadata, and the plaintext address
is not a substring of the serialization. -/
theorem C6_metadata_email_privacy_witness :
    watermarkMetadataOf testEnv ("b2fcf3f2".data) ("2026".data) ("a@b.c".data) =
      watermarkMetadataOf testEnv ("b2fcf3f2".data) ("2026".data) ("x@y.z".data) ∧
    ¬ ∃ l r, jsonStringifyMetadata
        (watermarkMetadataOf testEnv ("b2fcf3f2".data) ("2026".data) ("a@b.c".data)) =
        l ++ ("a@b.c".data) ++ r :=
  ⟨((C6_metadata_email_privacy testEnv ("b2fcf3f2".data) ("2026".data)
      ("a@b.c".data) ("x@y.z".data) (by decide) (by decide) (by decide)).1
      (by decide)).1,
   (C6_metadata_email_privacy testEnv ("b2fcf3f2".data) ("2026".data)
      ("a@b.c".data) ("x@y.z".data) (by decide) (by decide) (by decide)).2⟩

/-- The witness environment with the 2D canvas context unavailable. -/
def testEnvNoCtx : Env :=
  { testEnv with ctx2dAvailable := false }

/-- A concrete JPEG input file. -/
def testJpgFile : JsFile :=
  { name := ("photo.jpg".data), type := ("image/jpeg".data), content := [1, 2, 3] }

/-- Claim C1 counterexample: with the 2D canvas context unavailable,
`processDocument` on a JPEG input throws (`Except.error`) instead of
returning a `ProcessedDocument` with the original bytes — the
fallback claimed for `process` does not live in `processDocument`. -/
theorem C1_counterexample :
    processDocument testEnvNoCtx testJpgFile
        (submitOptions ("jane.doe@example.com".data) ("drivingLicense".data)) =
      Except.error ("Canvas context not available".data) := by
  rfl

/-- Claim C1 amended: on a recoverable rendering failure (2D context
unavailable) for a JPEG/PNG input, `processDocument` itself propagates
the error; the catch sits in the caller `handleDocumentsSubmit`, whose
per-document step then substitutes the base64 of the original,
unmodified bytes (name preserved through the field key, no
`metadataHash` since no `ProcessedDocument` is produced). -/
theorem C1_render_failure_throws_and_caller_falls_back (env : Env)
    (email docType : List Char) (file : JsFile)
    (options : ProcessDocumentOptions) (hctx : env.ctx2dAvailable = false)
    (hmem : file.type ∈
      [("image/jpeg".data), ("image/png".data), ("image/jpg".data)]) :
    processDocument env file options =
      Except.error ("Canvas context not available".data) ∧
    processDocEntry env email docType file =
      (apiFieldMap docType, readerBase64 file.content) := by
  have hpdf : file.type ≠ ("application/pdf".data) := by
    have hmem' := hmem
    simp only [List.mem_cons, List.not_mem_nil, or_false] at hmem'
    rcases hmem' with h | h | h <;> rw [h] <;> decide
  have hgen : ∀ opts : ProcessDocumentOptions,
      processDocument env file opts =
        Except.error ("Canvas context not available".data) := by
    intro opts
    have haw : applyWatermark env file
        { sessionId := env.randomUUID
          email := opts.userEmail
          timestamp := env.now
          visibleWatermark := some (opts.addVisibleWatermark.getD true)
          watermarkText := none
          opacity := none } =
        Except.error ("Canvas context not available".data) := by
      simp only [applyWatermark]
      rw [if_neg (not_not_intro hmem), if_pos hctx]
    simp only [processDocument]
    rw [if_neg hpdf, if_pos hmem, haw]
  refine ⟨hgen options, ?_⟩
  simp only [processDocEntry]
  rw [hgen (submitOptions email docType)]

/-- Claim C1 amended witness: the concrete JPEG file under a context
failure: `processDocument` errors and the submission loop entry carries
the original bytes. -/
theorem C1_render_failure_witness :
    processDocument testEnvNoCtx testJpgFile
        (submitOptions ("jane.doe@example.com".data) ("vehicleRegistration".data)) =
      Except.error ("Canvas context not available".data) ∧
    processDocEntry testEnvNoCtx ("jane.doe@example.com".data)
        ("vehicleRegistration".data) testJpgFile =
      (("vehicle_registration".data), readerBase64 [1, 2, 3]) :=
  C1_render_failure_throws_and_caller_falls_back testEnvNoCtx
    ("jane.doe@example.com".data) ("vehicleRegistration".data) testJpgFile
    (submitOptions ("jane.doe@example.com".data) ("vehicleRegistration".data))
    (by decide) (by decide)

/-- Claim C7: for a PDF input, no raster watermarking is attempted:
`applyPdfWatermark` packages the original bytes (data URL whose decoded
content is byte-identical to the input) together with the metadata
object and the server-watermark flags set, and `processDocument`
returns that blob with no `metadataHash`. -/
theorem C7_pdf_deferred (env : Env) (file : JsFile)
    (options : ProcessDocumentOptions)
    (hpdf : file.type = ("application/pdf".data))
    (hbytes : ∀ b ∈ file.content, b < 256) :
    (∀ wopts : WatermarkOptions,
      (applyPdfWatermark env file wopts).requiresServerProcessing = true ∧
      (applyPdfWatermark env file wopts).metadata.requiresServerWatermark = true ∧
      dataUrlToBlob (applyPdfWatermark env file wopts).data =
        some { type := ("application/pdf".data), content := file.content }) ∧
    processDocument env file options =
      Except.ok
        { blob := { type := ("application/pdf".data), content := file.content }
          originalName := file.name
          mimeType := file.type
          metadataHash := none
          watermarkId := some env.randomUUID
          processedAt := env.now.iso } := by
  have hurl : ∀ wopts : WatermarkOptions,
      dataUrlToBlob (applyPdfWatermark env file wopts).data =
        some { type := ("application/pdf".data), content := file.content } := by
    intro wopts
    show dataUrlToBlob (("data:application/pdf;base64,".data) ++
      b64Encode file.content) = _
    have hsplit : ("data:application/pdf;base64,".data) =
        ("data:application/pdf;base64".data) ++ [','] := by decide
    rw [hsplit, List.append_assoc, List.singleton_append,
      dataUrlToBlob_wellformed _ _ hbytes (by decide)]
    have hmm : (matchMime ("data:application/pdf;base64".data)).getD
        ("application/octet-stream".data) = ("application/pdf".data) := by decide
    rw [hmm]
  refine ⟨fun wopts => ⟨rfl, rfl, hurl wopts⟩, ?_⟩
  simp only [processDocument]
  rw [if_pos hpdf, hurl]

/-- Claim C7 witness: a concrete PDF file is passed through
byte-identically with the server-processing flag set and no metadata
hash. -/
theorem C7_pdf_deferred_witness :
    processDocument testEnv
        { name := ("contract.pdf".data), type := ("application/pdf".data),
          content := [37, 80, 68, 70] }
        (submitOptions ("jane.doe@example.com".data) ("insuranceDocument".data)) =
      Except.ok
        { blob := { type := ("application/pdf".data), content := [37, 80, 68, 70] }
          originalName := ("contract.pdf".data)
          mimeType := ("application/pdf".data)
          metadataHash := none
          watermarkId := some ("b2fcf3f2".data)
          processedAt := ("2026-10-11T00:00:00.000Z".data) } ∧
    (applyPdfWatermark testEnv
        { name := ("contract.pdf".data), type := ("application/pdf".data),
          content := [37, 80, 68, 70] }
        { sessionId := ("b2fcf3f2".data), email := ("jane.doe@example.com".data),
          timestamp := testEnv.now, visibleWatermark := none,
          watermarkText := none, opacity := none }).requiresServerProcessing =
      true :=
  ⟨(C7_pdf_deferred testEnv
      { name := ("contract.pdf".data), type := ("application/pdf".data),
        content := [37, 80, 68, 70] }
      (submitOptions ("jane.doe@example.com".data) ("insuranceDocument".data))
      (by decide) (by decide)).2,
   ((C7_pdf_deferred testEnv
      { name := ("contract.pdf".data), type := ("application/pdf".data),
        content := [37, 80, 68, 70] }
      (submitOptions ("jane.doe@example.com".data) ("insuranceDocument".data))
      (by decide) (by decide)).1
      { sessionId := ("b2fcf3f2".data), email := ("jane.doe@example.com".data),
        timestamp := testEnv.now, visibleWatermark := none,
        watermarkText := none, opacity := none }).1⟩

/-- Claim C8 counterexample: on a data URL whose prefix is malformed
(no `:(...);` pattern, as witnessed by `matchMime` failing), the source
`dataUrlToBlob` does not fail: it silently defaults the MIME type to
`application/octet-stream` and succeeds. -/
theorem C8_counterexample :
    matchMime ("xyz".data) = none ∧
    dataUrlToBlob ("xyz,QQ==".data) =
      some { type := ("application/octet-stream".data), content := [65] } := by
  constructor
  · decide
  · decide

/-- Claim C8 amended: `dataUrlToBlob` parses the
`data:<mime>;base64,<payload>` form, returning the payload bytes with
the declared MIME type; a malformed prefix does not fail but defaults
the type to `application/octet-stream`; a payload that is not valid
base64 throws (`atob`'s `InvalidCharacterError`, modelled as `none`). -/
theorem C8_dataUrlToBlob_parses (p0 payload mime : List Char) (bytes : List Nat)
    (hb : ∀ b ∈ bytes, b < 256) (hcomma : ',' ∉ p0) (hsemi : ';' ∉ mime)
    (hcm : ',' ∉ mime) (hcpl : ',' ∉ payload)
    (hbad : b64Decode payload = none) :
    dataUrlToBlob ((("data:".data) ++ mime ++ (";base64".data)) ++
        ',' :: b64Encode bytes) =
      some { type := mime, content := bytes } ∧
    dataUrlToBlob (p0 ++ ',' :: b64Encode bytes) =
      some { type := (matchMime p0).getD ("application/octet-stream".data)
             content := bytes } ∧
    dataUrlToBlob (p0 ++ ',' :: payload) = none := by
  refine ⟨?_, dataUrlToBlob_wellformed p0 bytes hb hcomma,
    dataUrlToBlob_badPayload p0 payload hcomma hcpl hbad⟩
  have hc : ',' ∉ ("data:".data) ++ mime ++ (";base64".data) := by
    intro h
    rcases List.mem_append.mp h with h' | h'
    · rcases List.mem_append.mp h' with h'' | h''
      · revert h''
        decide
      · exact hcm h''
    · revert h'
      decide
  rw [dataUrlToBlob_wellformed _ _ hb hc, matchMime_canonical mime hsemi,
    Option.getD_some]

/-- Claim C8 witness: a canonical PNG data URL parses to its payload
bytes and declared type; a malformed payload (single base64 character)
throws. -/
theorem C8_dataUrlToBlob_witness :
    dataUrlToBlob ((("data:".data) ++ ("image/png".data) ++ (";base64".data)) ++
        ',' :: b64Encode [7, 200]) =
      some { type := ("image/png".data), content := [7, 200] } ∧
    dataUrlToBlob (("xyz".data) ++ ',' :: ("A".data)) = none :=
  ⟨(C8_dataUrlToBlob_parses ("xyz".data) ("A".data) ("image/png".data) [7, 200]
      (by decide) (by decide) (by decide) (by decide) (by decide) (by decide)).1,
   (C8_dataUrlToBlob_parses ("xyz".data) ("A".data) ("image/png".data) [7, 200]
      (by decide) (by decide) (by decide) (by decide) (by decide) (by decide)).2.2⟩

/-- Claim C3: `encryptData` draws a fresh 12-byte (96-bit) IV from the
entropy stream on every call, and the exported package is the base64 of
`IV || ciphertext-with-tag`: the decoded package starts with the IV and
has length `12 + |ciphertext|`; a second call draws its IV from the
next 12 stream positions, and the two IVs differ whenever the stream
values at the paired positions differ. -/
theorem C3_encryptData_fresh_iv_package (env : Env) (key data1 : List Nat)
    (rng : Nat → Nat) (hrng : ∀ n, rng n < 256)
    (hct : ∀ b ∈ env.aesGcmEncrypt key ((List.range IV_LENGTH).map rng) data1,
      b < 256) :
    IV_LENGTH = 12 ∧
    ((List.range IV_LENGTH).map rng).length = 12 ∧
    base64ToArrayBuffer (encryptData env key data1 rng).1 =
      some (((List.range IV_LENGTH).map rng) ++
        env.aesGcmEncrypt key ((List.range IV_LENGTH).map rng) data1) ∧
    (((List.range IV_LENGTH).map rng) ++
        env.aesGcmEncrypt key ((List.range IV_LENGTH).map rng) data1).take 12 =
      (List.range IV_LENGTH).map rng ∧
    (((List.range IV_LENGTH).map rng) ++
        env.aesGcmEncrypt key ((List.range IV_LENGTH).map rng) data1).length =
      12 + (env.aesGcmEncrypt key ((List.range IV_LENGTH).map rng) data1).length ∧
    (encryptData env key data1 rng).2 = (fun n => rng (n + IV_LENGTH)) ∧
    ((∃ i, i < 12 ∧ rng i ≠ rng (i + 12)) →
      (List.range IV_LENGTH).map rng ≠
        (List.range IV_LENGTH).map ((encryptData env key data1 rng).2)) := by
  have hivlen : ((List.range IV_LENGTH).map rng).length = 12 := by
    simp [IV_LENGTH]
  refine ⟨rfl, hivlen, ?_, ?_, ?_, rfl, ?_⟩
  · apply b64Decode_b64Encode
    intro b hb
    rcases List.mem_append.mp hb with h | h
    · rcases List.mem_map.mp h with ⟨n, _, rfl⟩
      exact hrng n
    · exact hct b h
  · rw [← hivlen]
    exact List.take_left _ _
  · rw [List.length_append, hivlen]
  · rintro ⟨i, hi, hne⟩ heq
    have hgd := congrArg (fun l => l.getD i 0) heq
    simp only at hgd
    rw [range_map_getD rng IV_LENGTH i 0 (by rw [IV_LENGTH]; exact hi),
      range_map_getD _ IV_LENGTH i 0 (by rw [IV_LENGTH]; exact hi)] at hgd
    exact hne hgd

/-- Claim C3 witness: a concrete call under the test environment's
cipher: the decoded package is the 12 stream bytes followed by the
ciphertext. -/
theorem C3_encryptData_witness :
    base64ToArrayBuffer (encryptData testEnv [1] [5] (fun n => n % 256)).1 =
      some (((List.range IV_LENGTH).map (fun n => n % 256)) ++ [5, 9, 9]) ∧
    ((List.range IV_LENGTH).map (fun n => n % 256)).length = 12 :=
  ⟨(C3_encryptData_fresh_iv_package testEnv [1] [5] (fun n => n % 256)
      (fun n => Nat.mod_lt n (by decide)) (by decide)).2.2.1,
   (C3_encryptData_fresh_iv_package testEnv [1] [5] (fun n => n % 256)
      (fun n => Nat.mod_lt n (by decide)) (by decide)).2.1⟩

/-- Claim C10: the per-document loop of `handleDocumentsSubmit` never
aborts on a `processDocument` error: it produces exactly one payload
entry per document (in order), increments the progress counter exactly
once per document, and when `processDocument` throws for a document —
for example for an unsupported file type — the entry carries the base64
of the original, unprocessed file under the mapped API field name. -/
theorem C10_documents_loop_catches_per_document (env : Env) (email : List Char)
    (docs : List (List Char × JsFile)) :
    (handleDocumentsLoop env email docs).2 = docs.length ∧
    (handleDocumentsLoop env email docs).1.length = docs.length ∧
    (∀ i, i < docs.length →
      (handleDocumentsLoop env email docs).1.getD i ([], []) =
        processDocEntry env email
          (docs.getD i ([], { name := [], type := [], content := [] })).1
          (docs.getD i ([], { name := [], type := [], content := [] })).2) ∧
    (∀ docType (file : JsFile) (e : List Char),
      processDocument env file (submitOptions email docType) = Except.error e →
      processDocEntry env email docType file =
        (apiFieldMap docType, readerBase64 file.content)) := by
  refine ⟨?_, ?_, ?_, ?_⟩
  · induction docs with
    | nil => rfl
    | cons d rest ih =>
        obtain ⟨dt, f⟩ := d
        simp [handleDocumentsLoop, ih]
  · induction docs with
    | nil => rfl
    | cons d rest ih =>
        obtain ⟨dt, f⟩ := d
        simp [handleDocumentsLoop, ih]
  · induction docs with
    | nil => intro i hi; simp at hi
    | cons d rest ih =>
        obtain ⟨dt, f⟩ := d
        intro i hi
        cases i with
        | zero => simp [handleDocumentsLoop]
        | succ k =>
            have hk : k < rest.length := by simpa using hi
            simp only [handleDocumentsLoop, List.getD_cons_succ]
            exact ih k hk
  · intro docType file e h
    simp only [processDocEntry]
    rw [h]

/-- Claim C10 witness: a single document of unsupported type is caught,
counted once, and submitted as the base64 of the original bytes under
the mapped field name. -/
theorem C10_documents_loop_witness :
    processDocEntry testEnv ("jane.doe@example.com".data) ("workPatent".data)
        { name := ("n.txt".data), type := ("text/plain".data), content := [1] } =
      (("work_patent".data), readerBase64 [1]) ∧
    (handleDocumentsLoop testEnv ("jane.doe@example.com".data)
        [(("workPatent".data),
          { name := ("n.txt".data), type := ("text/plain".data), content := [1] })]).2 =
      1 :=
  ⟨(C10_documents_loop_catches_per_document testEnv ("jane.doe@example.com".data)
      []).2.2.2 ("workPatent".data)
      { name := ("n.txt".data), type := ("text/plain".data), content := [1] }
      (("Unsupported file type: ".data) ++ ("text/plain".data)) (by rfl),
   (C10_documents_loop_catches_per_document testEnv ("jane.doe@example.com".data)
      [(("workPatent".data),
        { name := ("n.txt".data), type := ("text/plain".data), content := [1] })]).1⟩

/-- Concrete image for the C2 witness (blue channel 7 everywhere). -/
def c2Img : Nat × Nat → Pix := fun _ => { r := 10, g := 20, b := 7, a := 255 }

/-- Concrete metadata object for the C2 witness. -/
def c2Meta : WatermarkMetadata :=
  { sessionId := ("b2fcf3f2".data)
    emailHash := ("0001020304050607".data)
    timestamp := ("2026-10-11T00:00:00.000Z".data)
    purpose := ("driver_registration".data)
    platform := ("deligo_website".data) }

set_option maxRecDepth 100000 in
/-- Claim C2 witness: on a 1000×1000 image the first region pixel's
blue LSB carries the first metadata bit and a pixel outside the region
is untouched. -/
theorem C2_invisible_watermark_witness :
    (applyInvisibleWatermark c2Img c2Meta 1000 1000
        (900 + 0 % 100, 900 + 0 / 100)).b % 2 =
      parseBinDigit ((textToBinary (jsonStringifyMetadata c2Meta)).getD 0 '0') ∧
    applyInvisibleWatermark c2Img c2Meta 1000 1000 (0, 0) = c2Img (0, 0) :=
  ⟨((C2_invisible_watermark_embeds_exactly c2Img c2Meta 1000 1000 100 900 900
      (textToBinary (jsonStringifyMetadata c2Meta)) rfl rfl rfl rfl
      (fun _ => (by decide : (7 : Nat) < 256)) (by decide)).1 0
      (by decide)).2.2.2.2.1,
   (C2_invisible_watermark_embeds_exactly c2Img c2Meta 1000 1000 100 900 900
      (textToBinary (jsonStringifyMetadata c2Meta)) rfl rfl rfl rfl
      (fun _ => (by decide : (7 : Nat) < 256)) (by decide)).2.2.1 0 0
      (Or.inl (by decide))⟩
